import Mathlib

/-!
Verification of the `audio-io` repository (reader.rs / writer.rs) against its
natural-language specification.

The read path (`audio_read` in src/reader.rs) is shallowly embedded as a pure
function over an abstract decode-collaborator stream.  The collaborators
(symphonia probing, demuxing, codec decoding, and seeking) are modelled by
their narrow contracts: the format reader is a list of events (packets with a
timestamp, a channel spec and an interleaved float buffer produced by
`decoder.decode`; reset-required conditions; io errors; other fatal errors),
and `seek` is best-effort with its result ignored (`let _ = format.seek(..)`
at reader.rs:166), so the model treats it as a no-op on the stream — a
legitimate collaborator behaviour — keeping only its observable arithmetic
(the `u64` division by `sample_rate`, which panics when the rate is zero).

Machine integers (`usize`/`u64`) are modelled as `Nat`; the operations the
source performs on them (comparisons, `+1`, truncating division) cannot
overflow on the inputs considered, but `usize` subtraction underflow and
division by zero, which panic in Rust, are modelled explicitly via the
`Outcome.panic` result.  Decoded `f32` samples are only moved (never computed
with) on the read path, so they are modelled as `Int` values.

Durations (`std::time::Duration`, converted via `as_secs_f64` and multiplied
by the sample rate at reader.rs:131-147) are modelled as exact nonnegative
rationals with the `as usize` cast as a floor; the f64 rounding of that
product is abstracted to exact rational arithmetic.
-/

namespace AudioIO

/-- Decoded interleaved sample, reader.rs moves `f32` samples without
arithmetic, so an abstract `Int` stands for the sample value. -/
abbrev Sample := Int

/-- A demuxed packet together with what the decode collaborator does with it:
`ts` is `packet.ts()`, `channels` the channel count of the decoded buffer's
spec (`spec.channels.count()`, reader.rs:224), `data` the interleaved decoded
samples (`buf.samples()`, reader.rs:248), and `decodeOk` whether
`decoder.decode(&packet)` succeeds (reader.rs:205). -/
structure Packet where
  trackId : Nat
  ts : Nat
  channels : Nat
  decodeOk : Bool
  data : List Sample
deriving DecidableEq, Repr

/-- One outcome of `format.next_packet()` in the read loop (reader.rs:189-199):
a packet, `Error::ResetRequired`, an `Error::IoError` (with whether its kind is
`UnexpectedEof`), or any other error. -/
inductive Event where
  | packet (p : Packet)
  | resetRequired
  | ioError (unexpectedEof : Bool)
  | fatalError
deriving DecidableEq, Repr

/-- The probed format stream: per-session facts of the selected track plus the
sequence of `next_packet()` outcomes.  `time_base` holds `tb.denom` (the code
only ever uses the denominator, reader.rs:163 and 212); `none` models a track
without a time base.  Exhausting `events` models `next_packet` reporting
end of stream. -/
structure FormatStream where
  sample_rate : Nat
  time_base : Option Nat
  track_id : Nat
  events : List Event
deriving DecidableEq, Repr

/-- Starting position in the audio stream (reader.rs `Start`). -/
inductive Start where
  | Beginning
  | Time (secs : ℚ)
  | Frame (n : Nat)
deriving DecidableEq, Repr

/-- Ending position in the audio stream (reader.rs `Stop`). -/
inductive Stop where
  | End
  | Time (secs : ℚ)
  | Frame (n : Nat)
deriving DecidableEq, Repr

/-- reader.rs `AudioReadConfig`. -/
structure AudioReadConfig where
  start : Start
  stop : Stop
  first_channel : Option Nat
  last_channel : Option Nat
deriving DecidableEq, Repr

/-- reader.rs `AudioData` (the generic float `F` abstracted as `Sample`). -/
structure AudioData where
  interleaved_samples : List Sample
  sample_rate : Nat
  num_channels : Nat
  num_frames : Nat
deriving DecidableEq, Repr

/-- reader.rs `AudioReadError`.  Error payloads carried by external types
(`std::io::Error`, symphonia's error) are dropped; `EncodingError` covers every
symphonia error propagated via `#[from]` (failed decode, fatal io, other fatal
`next_packet` errors). -/
inductive AudioReadError where
  | FileError
  | EncodingError
  | NoTrack
  | NoSampleRate
  | EndFrameLargerThanStartFrame (endFrame startFrame : Nat)
  | InvalidStartChannel (ch total : Nat)
  | InvalidEndChannel (ch total : Nat)
  | EndChannelLargerThanStartChannel (endCh startCh : Nat)
deriving DecidableEq, Repr

/-- Result of running `audio_read`: a value, an error, or a Rust panic
(out-of-bounds index, division by zero, `usize` underflow). -/
inductive Outcome where
  | ok (d : AudioData)
  | error (e : AudioReadError)
  | panic
deriving DecidableEq, Repr

/-- Frame-range resolution for `config.start` (reader.rs:131-138);
`Time` is `(duration.as_secs_f64() * sample_rate as f64) as usize`. -/
def resolveStart (s : Start) (sampleRate : Nat) : Nat :=
  match s with
  | .Beginning => 0
  | .Time secs => (⌊secs * (sampleRate : ℚ)⌋).toNat
  | .Frame n => n

/-- Frame-range resolution for `config.stop` (reader.rs:140-147). -/
def resolveStop (s : Stop) (sampleRate : Nat) : Option Nat :=
  match s with
  | .End => none
  | .Time secs => some (⌊secs * (sampleRate : ℚ)⌋).toNat
  | .Frame n => some n

/-- Channel-range validation on the first decoded packet (reader.rs:226-243),
returning the error the function would `return Err(..)` with, if any.  The
checks run in source order: start channel, then end channel, then the
end-vs-start comparison, the latter only when both bounds are explicitly
given. -/
def validateChannels (firstCh lastCh : Option Nat) (numChannels : Nat) :
    Option AudioReadError :=
  match firstCh with
  | some s =>
    if numChannels ≤ s then some (.InvalidStartChannel s numChannels)
    else
      match lastCh with
      | some e =>
        if numChannels < e then some (.InvalidEndChannel e numChannels)
        else if e ≤ s then some (.EndChannelLargerThanStartChannel e s)
        else none
      | none => none
  | none =>
    match lastCh with
    | some e =>
      if numChannels < e then some (.InvalidEndChannel e numChannels)
      else none
    | none => none

/-- Position resynchronisation from a packet timestamp (reader.rs:208-216):
`(ts * sample_rate) / tb.denom`, or `0` with no time base.  `none` models the
`u64` division-by-zero panic when the time base denominator is `0`. -/
def resyncPos (timeBase : Option Nat) (sampleRate ts : Nat) : Option Nat :=
  match timeBase with
  | some denom => if denom = 0 then none else some (ts * sampleRate / denom)
  | none => some 0

/-- One frame's channel extraction (the inner `for ch in ch_start..ch_end`
loop, reader.rs:280-283 and 308-311): the pushed samples are
`packet_samples[frame_idx * W + ch]` where `W` is the shadowed `num_channels`
binding of reader.rs:255.  `none` models the Rust index-out-of-bounds panic
(the largest index touched is `frameIdx * W + chEnd - 1`). -/
def sliceFrame (data : List Sample) (W frameIdx chStart chEnd : Nat) :
    Option (List Sample) :=
  if chEnd ≤ chStart then some []
  else if frameIdx * W + chEnd ≤ data.length then
    some ((List.range (chEnd - chStart)).map
      (fun k => data.getD (frameIdx * W + chStart + k) 0))
  else none

/-- Result of the per-packet frame loop. -/
inductive CollectRes where
  | earlyReturn (acc : List Sample)
  | panicked
  | finished (pos : Nat) (acc : List Sample)
deriving DecidableEq, Repr

/-- The `if pos >= end` test guarding each frame (reader.rs:265-266, 294-295),
false when no end frame was requested. -/
def endReached (endF : Option Nat) (pos : Nat) : Bool :=
  match endF with
  | some e => decide (e ≤ pos)
  | none => false

/-- The per-packet frame loop (reader.rs:263-287 / 292-316): for each of the
`frames` frame indices, first the end-frame check (early return), then the
start-frame check (collect the frame's channel range), then `pos += 1`. -/
def collectLoop (data : List Sample) (W chStart chEnd startF : Nat)
    (endF : Option Nat) :
    Nat → Nat → Nat → List Sample → CollectRes
  | 0, _, pos, acc => .finished pos acc
  | remaining + 1, frameIdx, pos, acc =>
    if endReached endF pos then
      .earlyReturn acc
    else if startF ≤ pos then
      match sliceFrame data W frameIdx chStart chEnd with
      | none => .panicked
      | some xs =>
        collectLoop data W chStart chEnd startF endF remaining
          (frameIdx + 1) (pos + 1) (acc ++ xs)
    else
      collectLoop data W chStart chEnd startF endF remaining
        (frameIdx + 1) (pos + 1) acc

/-- Result of processing one decoded packet's samples. -/
inductive PacketRes where
  | done (o : Outcome)
  | cont (samples : List Sample) (pos : Nat)
deriving DecidableEq, Repr

/-- The `if let Some(buf) = &mut sample_buf` block (reader.rs:246-321).
`numChannels` is the outer channel count learned from the first decoded
packet's spec.  reader.rs:255 rebinds `num_channels := ch_end - ch_start`
(shadowing the outer count); consequently the branch condition of
reader.rs:258, `ch_start != 0 || ch_end != num_channels`, compares against the
shadowed width, and both arms then run the very same computation: frame count
`packet_samples.len() / W` and indices `frame_idx * W + ch` for
`ch in ch_start..ch_end` (in the else-arm `ch_start = 0` and `ch_end = W`, so
its `0..num_channels` range coincides).  The two source arms are therefore
modelled once.  The early return inside the loop builds the result with the
shadowed `num_channels` as well (reader.rs:267-273 / 296-302).
`ch_end - ch_start` underflow and the `len / W` division by zero panic. -/
def packetCollect (sampleRate startF : Nat) (endF : Option Nat)
    (firstCh lastCh : Option Nat) (numChannels : Nat) (data : List Sample)
    (pos0 : Nat) (samples0 : List Sample) : PacketRes :=
  let chStart := firstCh.getD 0
  let chEnd := lastCh.getD numChannels
  if chEnd < chStart then .done .panic
  else
    let W := chEnd - chStart
    if W = 0 then .done .panic
    else
      let frames := data.length / W
      match collectLoop data W chStart chEnd startF endF frames 0 pos0 samples0 with
      | .earlyReturn acc =>
        .done (.ok { interleaved_samples := acc, sample_rate := sampleRate,
                     num_channels := W, num_frames := acc.length / W })
      | .panicked => .done .panic
      | .finished pos acc => .cont acc pos

/-- Mutable state of the read loop: whether `sample_buf`/the channel spec has
been initialised (reader.rs:218), the channel count from that spec, the
accumulated output samples, and `current_sample`. -/
structure RState where
  specSet : Bool
  numChannels : Nat
  samples : List Sample
  currentSample : Option Nat
deriving DecidableEq, Repr

/-- The fall-through after the loop breaks on end of stream
(reader.rs:324-334).  `ch_end - ch_start` can underflow (`usize`, panic) and
`samples.len() / num_channels` panics when the width is zero — in particular
`0 / 0` when no packet was ever decoded, since `num_channels` is still `0`. -/
def finishRead (sampleRate : Nat) (firstCh lastCh : Option Nat) (st : RState) :
    Outcome :=
  let chStart := firstCh.getD 0
  let chEnd := lastCh.getD st.numChannels
  if chEnd < chStart then .panic
  else
    let W := chEnd - chStart
    if W = 0 then .panic
    else
      .ok { interleaved_samples := st.samples, sample_rate := sampleRate,
            num_channels := W, num_frames := st.samples.length / W }

/-- Processing of one decoded packet of the selected track
(reader.rs:205-321): resynchronise `current_sample` if it is unknown
(reader.rs:208-216), then — first decoded packet only — learn the channel
count from the decoded spec and validate the channel range
(reader.rs:218-244), then collect the packet's frames.  Returns either the
loop-terminating outcome (`inl`: an early return, a validation error, or a
panic) or the loop state for the next iteration (`inr`). -/
def processPacket (sampleRate : Nat) (timeBase : Option Nat) (startF : Nat)
    (endF : Option Nat) (firstCh lastCh : Option Nat) (p : Packet)
    (st : RState) : Outcome ⊕ RState :=
  match (match st.currentSample with
         | some c => some c
         | none => resyncPos timeBase sampleRate p.ts) with
  | none => .inl .panic
  | some pos0 =>
    let C := if st.specSet then st.numChannels else p.channels
    match (if st.specSet then none
           else validateChannels firstCh lastCh p.channels) with
    | some err => .inl (.error err)
    | none =>
      match packetCollect sampleRate startF endF firstCh lastCh C
          p.data pos0 st.samples with
      | .done o => .inl o
      | .cont acc pos => .inr ⟨true, C, acc, some pos⟩

/-- The packet loop (reader.rs:188-322).  `Error::ResetRequired` resets the
decoder (stateless in the model) and continues with the loop state — including
`current_sample` — unchanged; an `UnexpectedEof` io error breaks to the
fall-through; any other `next_packet` error returns.  A packet of another
track is skipped before decoding; a decoded packet is handled by
`processPacket`. -/
def runEvents (sampleRate : Nat) (timeBase : Option Nat)
    (trackId startF : Nat) (endF : Option Nat) (firstCh lastCh : Option Nat) :
    List Event → RState → Outcome
  | [], st => finishRead sampleRate firstCh lastCh st
  | ev :: rest, st =>
    match ev with
    | .resetRequired =>
      runEvents sampleRate timeBase trackId startF endF firstCh lastCh rest st
    | .ioError eof =>
      if eof then finishRead sampleRate firstCh lastCh st
      else .error .EncodingError
    | .fatalError => .error .EncodingError
    | .packet p =>
      if p.trackId ≠ trackId then
        runEvents sampleRate timeBase trackId startF endF firstCh lastCh rest st
      else if p.decodeOk = false then .error .EncodingError
      else
        match processPacket sampleRate timeBase startF endF firstCh lastCh
            p st with
        | .inl o => o
        | .inr st' =>
          runEvents sampleRate timeBase trackId startF endF firstCh lastCh
            rest st'

/-- Body of `audio_read` after range resolution and the end-before-start
check: the best-effort seek (reader.rs:158-174, observable only through the
`seek_ts` division panicking when `sample_rate = 0`), then the packet loop
from the initial state. -/
def audioReadBody (stream : FormatStream) (config : AudioReadConfig)
    (startF : Nat) (endF : Option Nat) : Outcome :=
  if stream.sample_rate = 0 ∧ stream.sample_rate < startF ∧
      stream.time_base.isSome = true then .panic
  else
    runEvents stream.sample_rate stream.time_base stream.track_id startF endF
      config.first_channel config.last_channel stream.events
      ⟨false, 0, [], none⟩

/-- Shallow embedding of `audio_read` (reader.rs:92-335), starting after the
collaborator steps that precede the core (file open, probe, track selection,
sample-rate lookup, decoder construction — all assumed to succeed, their
failures merely surface collaborator errors).  Range resolution and the
end-before-start check (reader.rs:131-156) happen before any seek or packet
work. -/
def audio_read (stream : FormatStream) (config : AudioReadConfig) : Outcome :=
  let startF := resolveStart config.start stream.sample_rate
  match resolveStop config.stop stream.sample_rate with
  | some e =>
    if e < startF then .error (.EndFrameLargerThanStartFrame e startF)
    else audioReadBody stream config startF (some e)
  | none => audioReadBody stream config startF none

/-- Modelled from the spec: spec §4.3 / §2.3 describe the PacketPositionTracker
as, "on a decoder-reset condition, … it marks position unknown again and
resynchronizes from the next packet's timestamp, exactly as at stream start".
This variant of the packet loop follows those words: identical to `runEvents`
except that the `resetRequired` branch clears `currentSample`.  It exists to
state claim C6's resynchronisation property against the code. -/
def runEventsResync (sampleRate : Nat) (timeBase : Option Nat)
    (trackId startF : Nat) (endF : Option Nat) (firstCh lastCh : Option Nat) :
    List Event → RState → Outcome
  | [], st => finishRead sampleRate firstCh lastCh st
  | ev :: rest, st =>
    match ev with
    | .resetRequired =>
      runEventsResync sampleRate timeBase trackId startF endF firstCh lastCh
        rest ⟨st.specSet, st.numChannels, st.samples, none⟩
    | .ioError eof =>
      if eof then finishRead sampleRate firstCh lastCh st
      else .error .EncodingError
    | .fatalError => .error .EncodingError
    | .packet p =>
      if p.trackId ≠ trackId then
        runEventsResync sampleRate timeBase trackId startF endF firstCh lastCh
          rest st
      else if p.decodeOk = false then .error .EncodingError
      else
        match processPacket sampleRate timeBase startF endF firstCh lastCh
            p st with
        | .inl o => o
        | .inr st' =>
          runEventsResync sampleRate timeBase trackId startF endF firstCh
            lastCh rest st'

/-- Modelled from the spec: `audio_read` built on the resynchronising tracker
of `runEventsResync` instead of the code's `runEvents`; used to compare the
code's reset behaviour with the spec's words in claim C6. -/
def audio_read_resync (stream : FormatStream) (config : AudioReadConfig) :
    Outcome :=
  let startF := resolveStart config.start stream.sample_rate
  let body :=
    if stream.sample_rate = 0 ∧ stream.sample_rate < startF ∧
        stream.time_base.isSome = true then fun _ => Outcome.panic
    else fun endF =>
      runEventsResync stream.sample_rate stream.time_base stream.track_id
        startF endF config.first_channel config.last_channel stream.events
        ⟨false, 0, [], none⟩
  match resolveStop config.stop stream.sample_rate with
  | some e =>
    if e < startF then .error (.EndFrameLargerThanStartFrame e startF)
    else body (some e)
  | none => body none

/-!
The write path (`audio_write` in src/writer.rs).  The canonical in-memory
sample is an `f32`/`f64` value; it is modelled as an exact rational together
with the IEEE special values (`NaN`, the infinities).  The floating-point
multiplication `clamped * 32767` is abstracted to exact rational
multiplication (its result, with the clamped factor in `[-1, 1]`, lies in
`[-32767, 32767]`; only the truncated integer part matters to the claims).
The WAV container collaborator (hound) is abstracted away: the model returns
the sequence of raw sample values handed to `writer.write_sample`, in order.
-/

/-- A floating-point sample value: an exact finite value or an IEEE special. -/
inductive FVal where
  | finite (q : ℚ)
  | nan
  | posInf
  | negInf
deriving DecidableEq, Repr

/-- writer.rs `WriteSampleFormat`. -/
inductive WriteSampleFormat where
  | Int16
  | Float32
deriving DecidableEq, Repr

/-- Truncation toward zero, the behaviour of Rust's float-to-int `as` cast. -/
def ratTrunc (q : ℚ) : Int :=
  if 0 ≤ q then ⌊q⌋ else -⌊-q⌋

/-- `num_traits` clamp to `[-1, 1]` (writer.rs:57): `if input < min { min }
else if input > max { max } else { input }`; NaN fails both comparisons and is
returned unchanged. -/
def fclamp11 (x : FVal) : FVal :=
  match x with
  | .finite q => if q < -1 then .finite (-1) else if 1 < q then .finite 1 else .finite q
  | .nan => .nan
  | .posInf => .finite 1
  | .negInf => .finite (-1)

/-- Multiplication by `F::from(i16::MAX) = 32767` (writer.rs:58). -/
def fmul32767 : FVal → FVal
  | .finite q => .finite (q * 32767)
  | .nan => .nan
  | .posInf => .posInf
  | .negInf => .negInf

/-- `num_traits` `ToPrimitive::to_i16` for a float (writer.rs:59): values in
the exclusive range `(i16::MIN - 1, i16::MAX + 1)` are truncated toward zero;
everything else — including NaN and the infinities, which fail the range
comparisons — yields `None`. -/
def float_to_i16 : FVal → Option Int
  | .finite q => if -32769 < q ∧ q < 32768 then some (ratTrunc q) else none
  | _ => none

/-- The Int16 sample conversion of `audio_write` (writer.rs:57-60):
`(sample.clamp(-1, 1) * 32767).to_i16().unwrap_or(0)`. -/
def quantizeInt16 (x : FVal) : Int :=
  (float_to_i16 (fmul32767 (fclamp11 x))).getD 0

/-- `num_traits` `ToPrimitive::to_f32` for a float source (writer.rs:69): the
conversion always succeeds — every value, NaN and the infinities included, is
cast (`Some(*self as f32)`); for `f32` samples the cast is the identity. -/
def to_f32 (x : FVal) : Option FVal :=
  some x

/-- The Float32 sample conversion of `audio_write` (writer.rs:69):
`sample.to_f32().unwrap_or(0.0)`. -/
def quantizeFloat32 (x : FVal) : FVal :=
  (to_f32 x).getD (.finite 0)

/-- A raw sample as handed to `writer.write_sample`. -/
inductive WSample where
  | int (i : Int)
  | float (x : FVal)
deriving DecidableEq, Repr

/-- Shallow embedding of the conversion loop of `audio_write`
(writer.rs:52-73): the input block's frames in order, each frame's samples in
the caller's channel order, each sample converted per the chosen format; the
result is the sequence of raw samples written to the WAV collaborator. -/
def audio_write (frames : List (List FVal)) (fmt : WriteSampleFormat) :
    List WSample :=
  match fmt with
  | .Int16 => frames.flatten.map (fun s => .int (quantizeInt16 s))
  | .Float32 => frames.flatten.map (fun s => .float (quantizeFloat32 s))

/-!
Claim theorems.
-/

/-- Claim C1 (code bug, failing input): a stereo stream (channel count 2)
delivering one packet of two frames `(10, 20), (30, 40)` read with
`first_channel = Some(1)` must, per the claim, yield one output channel whose
samples are `[20, 40]` (channel `1` of each frame).  The code instead panics:
reader.rs:255 shadows `num_channels` with the sliced width `1`, so the frame
count becomes `4` and the indices `frame_idx * 1 + 1` run to `4`, out of
bounds of the packet buffer. -/
theorem c1_code_divergence :
    audio_read ⟨44100, none, 0, [.packet ⟨0, 0, 2, true, [10, 20, 30, 40]⟩]⟩
      ⟨.Beginning, .End, some 1, none⟩ = .panic := by decide

/-- Claim C3 (code bug, failing input): on a stream that yields no decodable
packets (immediate end of stream), with the default configuration, the final
`num_frames = samples.len() / (ch_end - ch_start)` at reader.rs:324-327
divides `0 / 0` (the channel count was never learned and both bounds are
absent) and panics, so `audio_read` is not total. -/
theorem c3_code_divergence :
    audio_read ⟨44100, none, 0, []⟩ ⟨.Beginning, .End, none, none⟩ =
      .panic := by decide

/-- Claim C2 (counterexample): the resolved range `start_frame = 0`,
`end_frame = 0` is valid for a stream with `total_stream_frames = 0`
(`0 ≤ 0 ≤ 0`), yet `audio_read` does not return a result with
`num_frames = 0`: with no decodable packet the channel count is never learned
and the final frame-count division is `0 / 0`, a panic. -/
theorem c2_counterexample :
    audio_read ⟨1, none, 0, []⟩ ⟨.Beginning, .Frame 0, none, none⟩ =
      .panic := by decide

/-- Claim C5 (counterexample): on a mono stream (channel count 1), the
configuration `first_channel = None`, `last_channel = Some(0)` resolves to the
channel range `[0, 0)` with last ≤ first, so the claim demands the
end-channel-not-after-start-channel error.  The code's validation
(reader.rs:236-242) only compares the two bounds when both are explicitly
given, so this configuration passes validation and then panics on
`packet_samples.len() / 0`. -/
theorem c5_counterexample :
    audio_read ⟨44100, none, 0, [.packet ⟨0, 0, 1, true, [7]⟩]⟩
        ⟨.Beginning, .End, none, some 0⟩ = .panic ∧
      Outcome.panic ≠
        .error (.EndChannelLargerThanStartChannel 0 0) := by decide

/-- Claim C10 (counterexample): a stream that reports clean end-of-stream
(an `UnexpectedEof` io error) before any packet was decoded does not make
`audio_read` return `Ok` with zero accumulated samples as the claim states:
the fall-through divides `0 / 0` computing `num_frames` and panics. -/
theorem c10_counterexample :
    audio_read ⟨44100, none, 0, [.ioError true]⟩
      ⟨.Beginning, .End, none, none⟩ = .panic := by decide

/-- Claim C6 (counterexample): mono stream at sample rate 1 with time base
denominator 1, packets of one frame each with timestamps 0 and 100, a
decoder-reset condition between them, and `stop = Frame(2)`.  The code keeps
`current_sample` across the reset (reader.rs:191-194 touch nothing but the
decoder), so the second packet lands at position 1 and both frames are
returned.  A tracker that, as the claim states, marks the position unknown on
reset and resynchronises from the next packet's timestamp
(`audio_read_resync`, built from the spec's words) would place the second
packet at position `100 * 1 / 1 = 100 ≥ 2` and stop with one frame.  The two
disagree, so the code does not resynchronise after a reset. -/
theorem c6_counterexample :
    audio_read ⟨1, some 1, 0,
        [.packet ⟨0, 0, 1, true, [10]⟩, .resetRequired,
         .packet ⟨0, 100, 1, true, [20]⟩]⟩
      ⟨.Beginning, .Frame 2, none, none⟩ =
        .ok ⟨[10, 20], 1, 1, 2⟩ ∧
      audio_read_resync ⟨1, some 1, 0,
        [.packet ⟨0, 0, 1, true, [10]⟩, .resetRequired,
         .packet ⟨0, 100, 1, true, [20]⟩]⟩
      ⟨.Beginning, .Frame 2, none, none⟩ =
        .ok ⟨[10], 1, 1, 1⟩ := by decide

/-- Claim C4 (confirmed): whenever both bounds resolve to concrete frames —
whether frame-specified or time-specified — with the resolved end frame
strictly before the resolved start frame, `audio_read` fails with
`EndFrameLargerThanStartFrame(end, start)`; the result is the same for every
event stream, i.e. the check runs before any packet is read, decoded, or any
seek is attempted. -/
theorem c4_end_before_start (sampleRate : Nat) (timeBase : Option Nat)
    (trackId : Nat) (events : List Event) (config : AudioReadConfig) (e : Nat)
    (hstop : resolveStop config.stop sampleRate = some e)
    (hlt : e < resolveStart config.start sampleRate) :
    audio_read ⟨sampleRate, timeBase, trackId, events⟩ config =
      .error (.EndFrameLargerThanStartFrame e
        (resolveStart config.start sampleRate)) := by
  unfold audio_read
  simp only [hstop]
  rw [if_pos hlt]

/-- Witness for C4 at a concrete input: time bounds `1 s` down to `0.5 s` at
sample rate 10 resolve to end frame 5 before start frame 10; the stream even
contains a decodable packet, which is never reached. -/
theorem c4_end_before_start_witness :
    audio_read ⟨10, none, 0, [.packet ⟨0, 0, 1, true, [1]⟩]⟩
      ⟨.Time 1, .Time (1/2), none, none⟩ =
        .error (.EndFrameLargerThanStartFrame 5 10) := by
  have h := c4_end_before_start 10 none 0 [.packet ⟨0, 0, 1, true, [1]⟩]
    ⟨.Time 1, .Time (1/2), none, none⟩ 5
    (by norm_num [resolveStop]; decide) (by norm_num [resolveStart])
  rwa [show resolveStart (Start.Time 1) 10 = 10 by
    norm_num [resolveStart]; decide] at h

/-- Deleting a `ResetRequired` event anywhere in the event sequence leaves the
packet loop's result unchanged: the reset branch touches only the (stateless)
decoder and continues with the same loop state. -/
lemma runEvents_reset_transparent (sampleRate : Nat) (timeBase : Option Nat)
    (trackId startF : Nat) (endF : Option Nat) (firstCh lastCh : Option Nat) :
    ∀ (evs1 evs2 : List Event) (st : RState),
      runEvents sampleRate timeBase trackId startF endF firstCh lastCh
        (evs1 ++ .resetRequired :: evs2) st =
      runEvents sampleRate timeBase trackId startF endF firstCh lastCh
        (evs1 ++ evs2) st := by
  intro evs1
  induction evs1 with
  | nil => intro evs2 st; rfl
  | cons ev tail ih =>
    intro evs2 st
    cases ev with
    | resetRequired => exact ih evs2 st
    | ioError eof => rfl
    | fatalError => rfl
    | packet p =>
      simp only [List.cons_append, runEvents]
      by_cases h1 : p.trackId ≠ trackId
      · rw [if_pos h1, if_pos h1]
        exact ih evs2 st
      · rw [if_neg h1, if_neg h1]
        by_cases h2 : p.decodeOk = false
        · rw [if_pos h2, if_pos h2]
        · rw [if_neg h2, if_neg h2]
          cases processPacket sampleRate timeBase startF endF firstCh lastCh
              p st with
          | inl o => rfl
          | inr st' => exact ih evs2 st'

/-- Claim C6 (amended): a mid-stream decoder-reset condition is never surfaced
as an error and never makes `audio_read` fail; the read continues exactly as
if the reset had not been reported — in particular the running position keeps
its prior value and is not marked unknown (so no resynchronisation from the
next packet's timestamp happens; only at stream start, while the position has
never been set, is it derived from a packet's timestamp). -/
theorem c6_amended (sampleRate : Nat) (timeBase : Option Nat) (trackId : Nat)
    (evs1 evs2 : List Event) (config : AudioReadConfig) :
    audio_read ⟨sampleRate, timeBase, trackId,
        evs1 ++ .resetRequired :: evs2⟩ config =
      audio_read ⟨sampleRate, timeBase, trackId, evs1 ++ evs2⟩ config := by
  unfold audio_read audioReadBody
  cases resolveStop config.stop sampleRate with
  | none =>
    simp only
    split
    · rfl
    · exact runEvents_reset_transparent _ _ _ _ _ _ _ evs1 evs2 _
  | some e =>
    simp only
    split
    · rfl
    · split
      · rfl
      · exact runEvents_reset_transparent _ _ _ _ _ _ _ evs1 evs2 _

/-- Reduction of `audio_read` to the first decoded packet's channel-range
validation error: when the resolved range passes the end-before-start check,
the sample rate is positive (no seek-computation panic) and the time base
denominator is nonzero (no resync panic), a stream whose first event is a
matching decodable packet fails with whatever error `validateChannels`
produces for that packet's channel count. -/
lemma read_first_packet_error (sampleRate : Nat) (timeBase : Option Nat)
    (trackId : Nat) (p : Packet) (rest : List Event)
    (config : AudioReadConfig) (err : AudioReadError)
    (hsr : 0 < sampleRate) (htb : ∀ d, timeBase = some d → 0 < d)
    (htid : p.trackId = trackId) (hdec : p.decodeOk = true)
    (hrange : ∀ e, resolveStop config.stop sampleRate = some e →
      resolveStart config.start sampleRate ≤ e)
    (hval : validateChannels config.first_channel config.last_channel
      p.channels = some err) :
    audio_read ⟨sampleRate, timeBase, trackId, .packet p :: rest⟩ config =
      .error err := by
  have hsr' : ¬ sampleRate = 0 := Nat.pos_iff_ne_zero.mp hsr
  have hresync : ∃ v, resyncPos timeBase sampleRate p.ts = some v := by
    cases htb' : timeBase with
    | none => exact ⟨0, rfl⟩
    | some d =>
      have hd : ¬ d = 0 := Nat.pos_iff_ne_zero.mp (htb d htb')
      exact ⟨p.ts * sampleRate / d, by simp [resyncPos, hd]⟩
  obtain ⟨v, hv⟩ := hresync
  have hbody : ∀ endF,
      audioReadBody ⟨sampleRate, timeBase, trackId, .packet p :: rest⟩ config
        (resolveStart config.start sampleRate) endF = .error err := by
    intro endF
    unfold audioReadBody
    rw [if_neg (by simp [hsr'])]
    simp only [runEvents]
    rw [if_neg (by simp [htid])]
    rw [if_neg (by simp [hdec])]
    unfold processPacket
    simp only [hv, hval]
    rfl
  unfold audio_read
  cases hstop : resolveStop config.stop sampleRate with
  | none => exact hbody none
  | some e =>
    simp only
    rw [if_neg (not_lt.mpr (hrange e hstop))]
    exact hbody (some e)

/-- Claim C5 (amended): against the channel count `C` learned from the first
decoded packet's spec, `audio_read` fails with `InvalidStartChannel` when an
explicitly given first channel is `≥ C`, with `InvalidEndChannel` when an
explicitly given last channel is `> C` (and the first channel, if given,
passed its check), and with the end-channel-not-after-start-channel error when
both bounds are explicitly given, in range, and last `≤` first.  The
end-vs-start comparison is only performed when both bounds are present — an
absent bound is not substituted by its resolved default. -/
theorem c5_amended (sampleRate : Nat) (timeBase : Option Nat) (trackId : Nat)
    (p : Packet) (rest : List Event) (config : AudioReadConfig)
    (hsr : 0 < sampleRate) (htb : ∀ d, timeBase = some d → 0 < d)
    (htid : p.trackId = trackId) (hdec : p.decodeOk = true)
    (hrange : ∀ e, resolveStop config.stop sampleRate = some e →
      resolveStart config.start sampleRate ≤ e) :
    (∀ s, config.first_channel = some s → p.channels ≤ s →
      audio_read ⟨sampleRate, timeBase, trackId, .packet p :: rest⟩ config =
        .error (.InvalidStartChannel s p.channels)) ∧
    (∀ e, config.last_channel = some e → p.channels < e →
      (∀ s, config.first_channel = some s → s < p.channels) →
      audio_read ⟨sampleRate, timeBase, trackId, .packet p :: rest⟩ config =
        .error (.InvalidEndChannel e p.channels)) ∧
    (∀ s e, config.first_channel = some s → config.last_channel = some e →
      s < p.channels → e ≤ p.channels → e ≤ s →
      audio_read ⟨sampleRate, timeBase, trackId, .packet p :: rest⟩ config =
        .error (.EndChannelLargerThanStartChannel e s)) := by
  refine ⟨?_, ?_, ?_⟩
  · intro s hs hC
    refine read_first_packet_error sampleRate timeBase trackId p rest config _
      hsr htb htid hdec hrange ?_
    simp [validateChannels, hs, hC]
  · intro e he hlt hfc
    refine read_first_packet_error sampleRate timeBase trackId p rest config _
      hsr htb htid hdec hrange ?_
    cases hfc' : config.first_channel with
    | none => simp [validateChannels, hfc', he, hlt]
    | some s =>
      have hsC : s < p.channels := hfc s hfc'
      simp [validateChannels, hfc', he, hlt, not_le.mpr hsC]
  · intro s e hs he hsC heC hes
    refine read_first_packet_error sampleRate timeBase trackId p rest config _
      hsr htb htid hdec hrange ?_
    simp [validateChannels, hs, he, not_le.mpr hsC, not_lt.mpr heC, hes]

/-- Witness for C5 at concrete inputs: a mono stream rejects
`first_channel = Some(1)` with `InvalidStartChannel(1, 1)` and
`last_channel = Some(2)` with `InvalidEndChannel(2, 1)`; a stereo stream
rejects `first_channel = Some(1), last_channel = Some(1)` with
`EndChannelLargerThanStartChannel(1, 1)`. -/
theorem c5_amended_witness :
    audio_read ⟨44100, none, 0, [.packet ⟨0, 0, 1, true, [7]⟩]⟩
        ⟨.Beginning, .End, some 1, none⟩ =
      .error (.InvalidStartChannel 1 1) ∧
    audio_read ⟨44100, none, 0, [.packet ⟨0, 0, 1, true, [7]⟩]⟩
        ⟨.Beginning, .End, none, some 2⟩ =
      .error (.InvalidEndChannel 2 1) ∧
    audio_read ⟨44100, none, 0, [.packet ⟨0, 0, 2, true, [7, 8]⟩]⟩
        ⟨.Beginning, .End, some 1, some 1⟩ =
      .error (.EndChannelLargerThanStartChannel 1 1) := by
  refine ⟨?_, ?_, ?_⟩
  · exact (c5_amended 44100 none 0 ⟨0, 0, 1, true, [7]⟩ []
      ⟨.Beginning, .End, some 1, none⟩ (by decide) (by intro d h; cases h)
      rfl rfl (by intro e h; cases h)).1 1 rfl (by decide)
  · exact (c5_amended 44100 none 0 ⟨0, 0, 1, true, [7]⟩ []
      ⟨.Beginning, .End, none, some 2⟩ (by decide) (by intro d h; cases h)
      rfl rfl (by intro e h; cases h)).2.1 2 rfl (by decide)
      (by intro s h; cases h)
  · exact (c5_amended 44100 none 0 ⟨0, 0, 2, true, [7, 8]⟩ []
      ⟨.Beginning, .End, some 1, some 1⟩ (by decide) (by intro d h; cases h)
      rfl rfl (by intro e h; cases h)).2.2 1 1 rfl rfl (by decide) (by decide)
      (by decide)

/-- Truncation toward zero stays inside `[-32767, 32767]` for arguments in
that interval. -/
lemma ratTrunc_bounds {q : ℚ} (h1 : -32767 ≤ q) (h2 : q ≤ 32767) :
    -32767 ≤ ratTrunc q ∧ ratTrunc q ≤ 32767 := by
  have h32 : ⌊(32767 : ℚ)⌋ = 32767 := by norm_num
  unfold ratTrunc
  split
  next h =>
    refine ⟨le_trans (by norm_num) (Int.floor_nonneg.mpr h), ?_⟩
    calc ⌊q⌋ ≤ ⌊(32767 : ℚ)⌋ := Int.floor_le_floor h2
    _ = 32767 := h32
  next h =>
    push_neg at h
    have h3 : 0 ≤ -q := by linarith
    have h4 : -q ≤ 32767 := by linarith
    have h5 : ⌊-q⌋ ≤ 32767 := le_of_le_of_eq (Int.floor_le_floor h4) h32
    have h6 : 0 ≤ ⌊-q⌋ := Int.floor_nonneg.mpr h3
    omega

/-- The quantizer applied to a clamped finite value in `[-1, 1]` yields the
truncated scaled value. -/
lemma quantizeInt16_of_clamped {q c : ℚ} (hc : fclamp11 (.finite q) = .finite c)
    (h1 : -1 ≤ c) (h2 : c ≤ 1) :
    quantizeInt16 (.finite q) = ratTrunc (c * 32767) := by
  have hm1 : -32769 < c * 32767 := by nlinarith
  have hm2 : c * 32767 < 32768 := by nlinarith
  unfold quantizeInt16
  rw [hc]
  show (float_to_i16 (.finite (c * 32767))).getD 0 = ratTrunc (c * 32767)
  simp only [float_to_i16]
  rw [if_pos ⟨hm1, hm2⟩]
  rfl

/-- Int16 quantization of an in-range finite sample: clamp is the identity and
the conversion truncates the scaled value. -/
lemma quantizeInt16_in {q : ℚ} (h1 : -1 ≤ q) (h2 : q ≤ 1) :
    quantizeInt16 (.finite q) = ratTrunc (q * 32767) := by
  refine quantizeInt16_of_clamped ?_ h1 h2
  simp only [fclamp11]
  rw [if_neg (not_lt.mpr h1), if_neg (not_lt.mpr h2)]

/-- Int16 quantization of a finite sample above 1 clamps to 32767. -/
lemma quantizeInt16_hi {q : ℚ} (h : 1 < q) :
    quantizeInt16 (.finite q) = 32767 := by
  have := quantizeInt16_of_clamped (q := q) (c := 1) ?_ (by norm_num) le_rfl
  · rw [this]; norm_num [ratTrunc]
  · simp only [fclamp11]
    rw [if_neg (by linarith : ¬ q < -1), if_pos h]

/-- Int16 quantization of a finite sample below -1 clamps to -32767. -/
lemma quantizeInt16_lo {q : ℚ} (h : q < -1) :
    quantizeInt16 (.finite q) = -32767 := by
  have := quantizeInt16_of_clamped (q := q) (c := -1) ?_ le_rfl (by norm_num)
  · rw [this]; norm_num [ratTrunc]
  · simp only [fclamp11]
    rw [if_pos h]

/-- Claim C7 (counterexample): a NaN sample is written as integer `0` by the
Int16 path of `audio_write` — `0` is neither of the representable bounds
`±32767`, so a non-finite NaN input does not "clamp to the nearest
representable bound" as the claim states. -/
theorem c7_counterexample :
    audio_write [[FVal.nan]] .Int16 = [.int 0] ∧
      WSample.int 0 ≠ .int 32767 ∧ WSample.int 0 ≠ .int (-32767) := by
  refine ⟨rfl, by decide, by decide⟩

/-- Claim C7 (amended): Int16 quantization in `audio_write` produces
`clamp(sample, -1, 1) * 32767` truncated toward zero; finite out-of-range
inputs and the infinities clamp to the nearest representable bound `±32767`,
NaN maps to `0`, and every result lies in `[-32767, 32767]` — no panic, no
overflow. -/
theorem c7_amended :
    (∀ q : ℚ, -1 ≤ q → q ≤ 1 →
      quantizeInt16 (.finite q) = ratTrunc (q * 32767)) ∧
    (∀ q : ℚ, 1 < q → quantizeInt16 (.finite q) = 32767) ∧
    (∀ q : ℚ, q < -1 → quantizeInt16 (.finite q) = -32767) ∧
    quantizeInt16 .posInf = 32767 ∧
    quantizeInt16 .negInf = -32767 ∧
    quantizeInt16 .nan = 0 ∧
    (∀ x : FVal, -32767 ≤ quantizeInt16 x ∧ quantizeInt16 x ≤ 32767) ∧
    (∀ frames : List (List FVal),
      audio_write frames .Int16 =
        frames.flatten.map (fun s => .int (quantizeInt16 s))) := by
  have hpos : quantizeInt16 .posInf = 32767 := by
    unfold quantizeInt16
    rw [(rfl : fclamp11 .posInf = .finite 1)]
    show (float_to_i16 (.finite ((1 : ℚ) * 32767))).getD 0 = 32767
    simp only [float_to_i16]
    rw [if_pos (by norm_num : ((-32769 : ℚ) < 1 * 32767 ∧ (1 : ℚ) * 32767 < 32768))]
    norm_num [ratTrunc]
  have hneg : quantizeInt16 .negInf = -32767 := by
    unfold quantizeInt16
    rw [(rfl : fclamp11 .negInf = .finite (-1))]
    show (float_to_i16 (.finite ((-1 : ℚ) * 32767))).getD 0 = -32767
    simp only [float_to_i16]
    rw [if_pos (by norm_num : ((-32769 : ℚ) < -1 * 32767 ∧ (-1 : ℚ) * 32767 < 32768))]
    norm_num [ratTrunc]
  refine ⟨fun q h1 h2 => quantizeInt16_in h1 h2,
    fun q h => quantizeInt16_hi h, fun q h => quantizeInt16_lo h,
    hpos, hneg, rfl, ?_, fun frames => rfl⟩
  intro x
  cases x with
  | nan => exact ⟨by decide, by decide⟩
  | posInf => rw [hpos]; norm_num
  | negInf => rw [hneg]; norm_num
  | finite q =>
    rcases lt_or_le q (-1) with h | h1
    · rw [quantizeInt16_lo h]; norm_num
    · rcases lt_or_le 1 q with h | h2
      · rw [quantizeInt16_hi h]; norm_num
      · rw [quantizeInt16_in h1 h2]
        exact ratTrunc_bounds (by nlinarith) (by nlinarith)

/-- Witness for C7's amended statement at concrete inputs: an in-range sample
`1/2` truncates to `16383`, the out-of-range sample `2` clamps to `32767`, and
`-2` clamps to `-32767`. -/
theorem c7_amended_witness :
    quantizeInt16 (.finite (1/2)) = ratTrunc ((1/2 : ℚ) * 32767) ∧
    quantizeInt16 (.finite 2) = 32767 ∧
    quantizeInt16 (.finite (-2)) = -32767 :=
  ⟨c7_amended.1 (1/2) (by norm_num) (by norm_num),
   c7_amended.2.1 2 (by norm_num),
   c7_amended.2.2.1 (-2) (by norm_num)⟩

/-- Claim C8 (counterexample): a NaN sample is written as NaN by the Float32
path of `audio_write`, not as `0.0`: `to_f32` succeeds on every float value
(including NaN), so the `unwrap_or(0.0)` fallback never fires. -/
theorem c8_counterexample :
    audio_write [[FVal.nan]] .Float32 = [.float FVal.nan] ∧
      FVal.nan ≠ FVal.finite 0 := by
  refine ⟨rfl, by decide⟩

/-- Claim C8 (amended): the Float32 path of `audio_write` writes every sample
directly — the conversion to `f32` succeeds for every value, NaN and the
infinities included, so each sample (NaN too) is passed through unchanged and
the `0.0` fallback is dead for float inputs. -/
theorem c8_amended :
    (∀ x : FVal, quantizeFloat32 x = x) ∧
    (∀ frames : List (List FVal),
      audio_write frames .Float32 = frames.flatten.map (fun s => .float s)) := by
  refine ⟨fun x => rfl, fun frames => rfl⟩

/-- Full-width slicing (`ch_start = 0`, `ch_end = W = C`) succeeds and yields
exactly `C` samples whenever the frame lies inside the buffer. -/
lemma sliceFrame_full (data : List Sample) (C frameIdx : Nat) (hC : 0 < C)
    (hlen : frameIdx * C + C ≤ data.length) :
    ∃ xs, sliceFrame data C frameIdx 0 C = some xs ∧ xs.length = C := by
  unfold sliceFrame
  rw [if_neg (by omega), if_pos hlen]
  exact ⟨_, rfl, by simp⟩

/-- With no end frame, the full-width frame loop never returns early and never
panics: it advances the position by exactly the frame count. -/
lemma collectLoop_none (data : List Sample) (C startF : Nat) (hC : 0 < C) :
    ∀ remaining frameIdx pos acc,
      C * (frameIdx + remaining) ≤ data.length →
      ∃ acc', collectLoop data C 0 C startF none remaining frameIdx pos acc =
        .finished (pos + remaining) acc' := by
  intro remaining
  induction remaining with
  | zero => intro frameIdx pos acc _; exact ⟨acc, rfl⟩
  | succ r ih =>
    intro frameIdx pos acc hlen
    have hframe : frameIdx * C + C ≤ data.length := by
      calc frameIdx * C + C = C * frameIdx + C * 1 := by ring
      _ ≤ C * frameIdx + C * (r + 1) :=
        Nat.add_le_add_left (Nat.mul_le_mul_left C (by omega)) _
      _ = C * (frameIdx + (r + 1)) := by ring
      _ ≤ data.length := hlen
    have hrec : C * ((frameIdx + 1) + r) ≤ data.length := by
      calc C * ((frameIdx + 1) + r) = C * (frameIdx + (r + 1)) := by ring
      _ ≤ data.length := hlen
    obtain ⟨xs, hxs, hxsl⟩ := sliceFrame_full data C frameIdx hC hframe
    have e : pos + 1 + r = pos + (r + 1) := by omega
    by_cases hs : startF ≤ pos
    · have hstep : collectLoop data C 0 C startF none (r + 1) frameIdx pos acc =
          collectLoop data C 0 C startF none r (frameIdx + 1) (pos + 1)
            (acc ++ xs) := by
        simp only [collectLoop, endReached, Bool.false_eq_true, if_false]
        rw [if_pos hs, hxs]
      obtain ⟨acc', hacc⟩ := ih (frameIdx + 1) (pos + 1) (acc ++ xs) hrec
      refine ⟨acc', ?_⟩
      rw [hstep, ← e]
      exact hacc
    · have hstep : collectLoop data C 0 C startF none (r + 1) frameIdx pos acc =
          collectLoop data C 0 C startF none r (frameIdx + 1) (pos + 1) acc := by
        simp only [collectLoop, endReached, Bool.false_eq_true, if_false]
        rw [if_neg hs]
      obtain ⟨acc', hacc⟩ := ih (frameIdx + 1) (pos + 1) acc hrec
      refine ⟨acc', ?_⟩
      rw [hstep, ← e]
      exact hacc

/-- With an end frame `b`, the full-width frame loop over a buffer of exactly
`frameIdx + remaining` frames either returns early — as soon as the position
reaches `b`, with exactly `C * (b - a)` accumulated samples — or finishes the
buffer with the accumulator tracking `C * (min pos b - a)`. -/
lemma collectLoop_some (data : List Sample) (C a b : Nat) (hC : 0 < C) :
    ∀ remaining frameIdx pos acc,
      data.length = C * (frameIdx + remaining) →
      acc.length = C * (min pos b - a) →
      (if remaining ≠ 0 ∧ b < pos + remaining then
        ∃ acc', collectLoop data C 0 C a (some b) remaining frameIdx pos acc =
            .earlyReturn acc' ∧ acc'.length = C * (b - a)
      else
        ∃ acc', collectLoop data C 0 C a (some b) remaining frameIdx pos acc =
            .finished (pos + remaining) acc' ∧
          acc'.length = C * (min (pos + remaining) b - a)) := by
  intro remaining
  induction remaining with
  | zero =>
    intro frameIdx pos acc hlen hacc
    rw [if_neg (by simp)]
    exact ⟨acc, rfl, by simpa using hacc⟩
  | succ r ih =>
    intro frameIdx pos acc hlen hacc
    by_cases hb : b ≤ pos
    · rw [if_pos ⟨by simp, by omega⟩]
      refine ⟨acc, ?_, ?_⟩
      · simp only [collectLoop, endReached]
        rw [if_pos (by simpa using hb)]
      · rw [hacc]
        have e : min pos b = b := by omega
        rw [e]
    · push_neg at hb
      have hend : endReached (some b) pos = false := by
        simp only [endReached, decide_eq_false_iff_not]
        omega
      have hframe : frameIdx * C + C ≤ data.length := by
        calc frameIdx * C + C = C * frameIdx + C * 1 := by ring
        _ ≤ C * frameIdx + C * (r + 1) :=
          Nat.add_le_add_left (Nat.mul_le_mul_left C (by omega)) _
        _ = C * (frameIdx + (r + 1)) := by ring
        _ = data.length := hlen.symm
      have hrec : data.length = C * ((frameIdx + 1) + r) := by
        rw [hlen]; ring
      have epos : pos + 1 + r = pos + (r + 1) := by omega
      obtain ⟨xs, hxs, hxslen⟩ := sliceFrame_full data C frameIdx hC hframe
      by_cases hs : a ≤ pos
      · have hstep : collectLoop data C 0 C a (some b) (r + 1) frameIdx pos acc =
            collectLoop data C 0 C a (some b) r (frameIdx + 1) (pos + 1)
              (acc ++ xs) := by
          simp only [collectLoop, hend, Bool.false_eq_true, if_false]
          rw [if_pos hs, hxs]
        have hacc2 : (acc ++ xs).length = C * (min (pos + 1) b - a) := by
          rw [List.length_append, hacc, hxslen]
          have h1 : min pos b = pos := Nat.min_eq_left (Nat.le_of_lt hb)
          have h2 : min (pos + 1) b = pos + 1 := Nat.min_eq_left hb
          rw [h1, h2]
          have h3 : pos + 1 - a = (pos - a) + 1 := by omega
          rw [h3, Nat.mul_succ]
        have hih := ih (frameIdx + 1) (pos + 1) (acc ++ xs) hrec hacc2
        by_cases hc : r ≠ 0 ∧ b < (pos + 1) + r
        · rw [if_pos hc] at hih
          obtain ⟨acc', h1, h2⟩ := hih
          rw [if_pos ⟨by simp, by omega⟩, hstep]
          exact ⟨acc', h1, h2⟩
        · rw [if_neg hc] at hih
          obtain ⟨acc', h1, h2⟩ := hih
          have hcid : ¬ ((r + 1 ≠ 0) ∧ b < pos + (r + 1)) := by
            intro ⟨_, hlt⟩
            rcases Decidable.not_and_iff_or_not.mp hc with h | h
            · push_neg at h
              subst h
              omega
            · push_neg at h
              omega
          rw [if_neg hcid, hstep, ← epos]
          exact ⟨acc', h1, h2⟩
      · have hstep : collectLoop data C 0 C a (some b) (r + 1) frameIdx pos acc =
            collectLoop data C 0 C a (some b) r (frameIdx + 1) (pos + 1) acc := by
          simp only [collectLoop, hend, Bool.false_eq_true, if_false]
          rw [if_neg hs]
        push_neg at hs
        have hacc2 : acc.length = C * (min (pos + 1) b - a) := by
          rw [hacc]
          have e1 : min pos b - a = 0 := by omega
          have e2 : min (pos + 1) b - a = 0 := by omega
          rw [e1, e2]
        have hih := ih (frameIdx + 1) (pos + 1) acc hrec hacc2
        by_cases hc : r ≠ 0 ∧ b < (pos + 1) + r
        · rw [if_pos hc] at hih
          obtain ⟨acc', h1, h2⟩ := hih
          rw [if_pos ⟨by simp, by omega⟩, hstep]
          exact ⟨acc', h1, h2⟩
        · rw [if_neg hc] at hih
          obtain ⟨acc', h1, h2⟩ := hih
          have hcid : ¬ ((r + 1 ≠ 0) ∧ b < pos + (r + 1)) := by
            intro ⟨_, hlt⟩
            rcases Decidable.not_and_iff_or_not.mp hc with h | h
            · push_neg at h
              subst h
              omega
            · push_neg at h
              omega
          rw [if_neg hcid, hstep, ← epos]
          exact ⟨acc', h1, h2⟩

/-- Reduction of `processPacket` when the position is known (or resyncs) and
channel validation passes: the packet is collected from position `f`. -/
lemma processPacket_reduce (sampleRate : Nat) (timeBase : Option Nat)
    (startF : Nat) (endF : Option Nat) (firstCh lastCh : Option Nat)
    (p : Packet) (st : RState) (f : Nat)
    (hpos0 : (match st.currentSample with
              | some c => some c
              | none => resyncPos timeBase sampleRate p.ts) = some f)
    (hval : (if st.specSet then none
             else validateChannels firstCh lastCh p.channels) = none) :
    processPacket sampleRate timeBase startF endF firstCh lastCh p st =
      (match packetCollect sampleRate startF endF firstCh lastCh
          (if st.specSet then st.numChannels else p.channels)
          p.data f st.samples with
       | .done o => .inl o
       | .cont acc pos =>
         .inr ⟨true, (if st.specSet then st.numChannels else p.channels),
               acc, some pos⟩) := by
  unfold processPacket
  rw [hpos0, hval]

/-- A decode-collaborator packet delivering `framesList` as whole frames:
timestamp 0, the selected track, successful decode, and the interleaved
concatenation of the frames as sample buffer. -/
def mkPacket (trackId C : Nat) (framesList : List (List Sample)) : Packet :=
  ⟨trackId, 0, C, true, framesList.flatten⟩

/-- Total number of frames delivered by a list of packets (each packet a list
of frames). -/
def totalFrames (pks : List (List (List Sample))) : Nat :=
  (pks.map List.length).sum

/-- Interleaving frames of uniform width `C` yields `C * count` samples. -/
lemma flatten_length_uniform (C : Nat) :
    ∀ (pk : List (List Sample)), (∀ fr ∈ pk, fr.length = C) →
      pk.flatten.length = C * pk.length := by
  intro pk
  induction pk with
  | nil => simp
  | cons fr tl ih =>
    intro h
    simp only [List.flatten_cons, List.length_append, List.length_cons]
    rw [h fr (by simp), ih (fun f hf => h f (by simp [hf]))]
    ring

/-- `packetCollect` with no channel filtering on a buffer of exactly `k`
frames of width `C`, starting at position `f`: if the end frame `b` falls
inside the packet, the early return fires with exactly `b - a` output frames;
otherwise the packet is consumed whole, accumulator length tracking
`C * (min pos b - a)`. -/
lemma packetCollect_some_endF (sr a b C : Nat) (hC : 0 < C)
    (data : List Sample) (k : Nat) (hlen : data.length = C * k)
    (f : Nat) (acc : List Sample) (hacc : acc.length = C * (min f b - a)) :
    (if k ≠ 0 ∧ b < f + k then
      ∃ acc', packetCollect sr a (some b) none none C data f acc =
        .done (.ok ⟨acc', sr, C, b - a⟩)
    else
      ∃ acc', packetCollect sr a (some b) none none C data f acc =
          .cont acc' (f + k) ∧
        acc'.length = C * (min (f + k) b - a)) := by
  have hW : ¬ (C - 0 = 0) := by omega
  have hframes : data.length / (C - 0) = k := by
    simp only [Nat.sub_zero]
    rw [hlen, Nat.mul_div_cancel_left _ hC]
  have hcl := collectLoop_some data C a b hC k 0 f acc (by simpa using hlen) hacc
  unfold packetCollect
  simp only [Option.getD_none]
  rw [if_neg (Nat.not_lt_zero C), if_neg hW, hframes]
  simp only [Nat.sub_zero]
  by_cases hc : k ≠ 0 ∧ b < f + k
  · rw [if_pos hc] at hcl ⊢
    obtain ⟨acc', h1, h2⟩ := hcl
    refine ⟨acc', ?_⟩
    rw [h1]
    have hnf : acc'.length / C = b - a := by
      rw [h2, Nat.mul_div_cancel_left _ hC]
    show PacketRes.done (.ok ⟨acc', sr, C, acc'.length / C⟩) =
      PacketRes.done (.ok ⟨acc', sr, C, b - a⟩)
    rw [hnf]
  · rw [if_neg hc] at hcl ⊢
    obtain ⟨acc', h1, h2⟩ := hcl
    exact ⟨acc', by rw [h1], h2⟩

/-- The packet loop over whole-frame packets of width `C` with no channel
filtering: starting from a state whose accumulated samples track position `f`,
the loop returns `Ok` with exactly `b - a` output frames, provided the range
is within the delivered frames. -/
lemma c2_run (sr tid a b C : Nat) (hC : 0 < C) :
    ∀ (pks : List (List (List Sample))) (st : RState) (f : Nat),
      (∀ pk ∈ pks, ∀ fr ∈ pk, fr.length = C) →
      st.samples.length = C * (min f b - a) →
      (st.currentSample = some f ∨ (st.currentSample = none ∧ f = 0)) →
      (st.specSet = true → st.numChannels = C) →
      (st.specSet = false → pks ≠ []) →
      b ≤ f + totalFrames pks →
      ∃ d, runEvents sr none tid a (some b) none none
          (pks.map (fun pk => Event.packet (mkPacket tid C pk))) st = .ok d ∧
        d.num_frames = b - a := by
  intro pks
  induction pks with
  | nil =>
    intro st f hframes hacc hpos hspec hne hb
    have hs : st.specSet = true := by
      cases hss : st.specSet with
      | false => exact absurd rfl (hne hss)
      | true => rfl
    have hnc : st.numChannels = C := hspec hs
    have hbf : b ≤ f := by simpa [totalFrames] using hb
    refine ⟨⟨st.samples, sr, C, b - a⟩, ?_, rfl⟩
    simp only [List.map_nil, runEvents, finishRead, Option.getD_none, hnc]
    rw [if_neg (Nat.not_lt_zero C), if_neg (by omega : ¬ C - 0 = 0)]
    simp only [Nat.sub_zero]
    have hnf : st.samples.length / C = b - a := by
      rw [hacc]
      have e : min f b = b := by omega
      rw [e, Nat.mul_div_cancel_left _ hC]
    rw [hnf]
  | cons pk rest ih =>
    intro st f hframes hacc hpos hspec hne hb
    have htot : totalFrames (pk :: rest) = pk.length + totalFrames rest := by
      simp [totalFrames]
    have htid' : (mkPacket tid C pk).trackId = tid := rfl
    have hdec' : (mkPacket tid C pk).decodeOk = true := rfl
    have hch' : (mkPacket tid C pk).channels = C := rfl
    have hdata : (mkPacket tid C pk).data = pk.flatten := rfl
    have hflat : pk.flatten.length = C * pk.length :=
      flatten_length_uniform C pk (hframes pk (by simp))
    have hpos0 : (match st.currentSample with
        | some c => some c
        | none => resyncPos none sr (mkPacket tid C pk).ts) = some f := by
      rcases hpos with h | ⟨h, hf⟩
      · rw [h]
      · rw [h, hf]; rfl
    have hval : (if st.specSet then none
        else validateChannels none none (mkPacket tid C pk).channels) =
          (none : Option AudioReadError) := by
      cases hss : st.specSet with
      | true => simp [hss]
      | false => simp [hss, validateChannels]
    have hC' : (if st.specSet then st.numChannels
        else (mkPacket tid C pk).channels) = C := by
      cases hss : st.specSet with
      | true => simpa [hss] using hspec hss
      | false => simp [hss, hch']
    simp only [List.map_cons, runEvents]
    rw [if_neg (by simp [htid'])]
    rw [if_neg (by simp [hdec'])]
    rw [processPacket_reduce sr none a (some b) none none (mkPacket tid C pk)
      st f hpos0 hval, hC', hdata]
    have hpc := packetCollect_some_endF sr a b C hC pk.flatten pk.length hflat
      f st.samples hacc
    by_cases hc : pk.length ≠ 0 ∧ b < f + pk.length
    · rw [if_pos hc] at hpc
      obtain ⟨acc', h1⟩ := hpc
      rw [h1]
      exact ⟨⟨acc', sr, C, b - a⟩, rfl, rfl⟩
    · rw [if_neg hc] at hpc
      obtain ⟨acc', h1, h2⟩ := hpc
      rw [h1]
      have hih := ih ⟨true, C, acc', some (f + pk.length)⟩ (f + pk.length)
        (fun q hq => hframes q (by simp [hq])) h2 (Or.inl rfl) (fun _ => rfl)
        (fun h => nomatch h) (by omega)
      obtain ⟨d, hd1, hd2⟩ := hih
      exact ⟨d, hd1, hd2⟩

/-- Claim C2 (amended): for every stream that decodes at least one packet,
delivered from the beginning, with no channel filtering requested, and every
valid resolved range `a ≤ b ≤ total frames`, `audio_read` returns exactly
`b - a` frames — frame-accurate truncation regardless of how the decode
engine groups frames into packets: pre-start frames are dropped and, once the
running position reaches the end frame, collection stops and no further
samples are appended. -/
theorem c2_amended (sr tid a b C : Nat) (pks : List (List (List Sample)))
    (hC : 0 < C) (hab : a ≤ b)
    (hframes : ∀ pk ∈ pks, ∀ fr ∈ pk, fr.length = C)
    (hne : pks ≠ []) (hb : b ≤ totalFrames pks) :
    ∃ d, audio_read ⟨sr, none, tid,
        pks.map (fun pk => Event.packet (mkPacket tid C pk))⟩
        ⟨.Frame a, .Frame b, none, none⟩ = .ok d ∧
      d.num_frames = b - a := by
  unfold audio_read
  simp only [resolveStart, resolveStop]
  rw [if_neg (not_lt.mpr hab)]
  unfold audioReadBody
  rw [if_neg (by simp)]
  exact c2_run sr tid a b C hC pks ⟨false, 0, [], none⟩ 0 hframes (by simp)
    (Or.inr ⟨rfl, rfl⟩) (fun h => nomatch h) (fun _ => hne) (by simpa using hb)

/-- Witness for C2's amended statement at a concrete input: a mono stream of
4 frames split into two 2-frame packets, read over the range `[1, 3)`, yields
exactly 2 frames. -/
theorem c2_amended_witness :
    ∃ d, audio_read ⟨8, none, 0,
        [[[5], [6]], [[7], [8]]].map
          (fun pk => Event.packet (mkPacket 0 1 pk))⟩
        ⟨.Frame 1, .Frame 3, none, none⟩ = .ok d ∧
      d.num_frames = 3 - 1 :=
  c2_amended 8 0 1 3 1 [[[5], [6]], [[7], [8]]] (by decide) (by decide)
    (by decide) (by decide) (by decide)

/-- `packetCollect` with no channel filtering and no end frame always
continues: the whole packet is consumed and the position advances by its frame
count. -/
lemma packetCollect_none_endF (sr a C : Nat) (hC : 0 < C)
    (data : List Sample) (f : Nat) (acc : List Sample) :
    ∃ acc', packetCollect sr a none none none C data f acc =
      .cont acc' (f + data.length / C) := by
  have hW : ¬ (C - 0 = 0) := by omega
  obtain ⟨acc', h⟩ := collectLoop_none data C a hC (data.length / C) 0 f acc
    (by
      simp only [Nat.zero_add]
      rw [Nat.mul_comm]
      exact Nat.div_mul_le_self data.length C)
  refine ⟨acc', ?_⟩
  unfold packetCollect
  simp only [Option.getD_none]
  rw [if_neg (Nat.not_lt_zero C), if_neg hW]
  simp only [Nat.sub_zero]
  rw [h]

/-- Scan of the `next_packet` outcome sequence for a failure the read loop
propagates: a non-`UnexpectedEof` io error, any other fatal `next_packet`
error, or a failing decode of a selected-track packet; the scan stops at a
clean end of stream (an `UnexpectedEof` io error or exhaustion). -/
def scanFailure (trackId : Nat) : List Event → Bool
  | [] => false
  | .packet p :: rest =>
    if p.trackId = trackId ∧ p.decodeOk = false then true
    else scanFailure trackId rest
  | .resetRequired :: rest => scanFailure trackId rest
  | .ioError unexpectedEof :: _ => !unexpectedEof
  | .fatalError :: _ => true

/-- Whether a selected-track packet is delivered before the stream (cleanly)
ends. -/
def decodesSome (trackId : Nat) : List Event → Bool
  | [] => false
  | .packet p :: rest =>
    if p.trackId = trackId then true else decodesSome trackId rest
  | .resetRequired :: rest => decodesSome trackId rest
  | .ioError unexpectedEof :: rest =>
    if unexpectedEof then false else decodesSome trackId rest
  | .fatalError :: rest => decodesSome trackId rest

/-- The packet loop with no channel filtering and no end frame: it returns the
`EncodingError` exactly when the event sequence reports a failure other than
clean end-of-stream, and otherwise returns `Ok` — provided a selected-track
packet was decoded (so the final division is by a positive channel count). -/
lemma c10_run (sr : Nat) (tb : Option Nat) (tid a : Nat)
    (htb : ∀ d, tb = some d → 0 < d) :
    ∀ (evs : List Event) (st : RState),
      (st.specSet = true → 0 < st.numChannels) →
      (∀ p, Event.packet p ∈ evs → 0 < p.channels) →
      (scanFailure tid evs = false →
        (st.specSet = true ∨ decodesSome tid evs = true)) →
      (scanFailure tid evs = true →
        runEvents sr tb tid a none none none evs st =
          .error .EncodingError) ∧
      (scanFailure tid evs = false →
        ∃ d, runEvents sr tb tid a none none none evs st = .ok d) := by
  intro evs
  induction evs with
  | nil =>
    intro st h1 h2 h3
    refine ⟨fun h => (nomatch h), fun _ => ?_⟩
    have hs : st.specSet = true := by
      rcases h3 rfl with h | h
      · exact h
      · exact nomatch h
    have hpos := h1 hs
    refine ⟨⟨st.samples, sr, st.numChannels,
      st.samples.length / st.numChannels⟩, ?_⟩
    simp only [runEvents, finishRead, Option.getD_none]
    rw [if_neg (Nat.not_lt_zero _),
      if_neg (by omega : ¬ st.numChannels - 0 = 0)]
    simp only [Nat.sub_zero]
  | cons ev tail ih =>
    intro st h1 h2 h3
    cases ev with
    | resetRequired =>
      exact ih st h1 (fun p hp => h2 p (by simp [hp])) h3
    | fatalError =>
      exact ⟨fun _ => rfl, fun h => nomatch h⟩
    | ioError eof =>
      cases eof with
      | true =>
        refine ⟨fun h => (nomatch h), fun _ => ?_⟩
        have hs : st.specSet = true := by
          rcases h3 rfl with h | h
          · exact h
          · exact nomatch h
        have hpos := h1 hs
        refine ⟨⟨st.samples, sr, st.numChannels,
          st.samples.length / st.numChannels⟩, ?_⟩
        show finishRead sr none none st = _
        simp only [finishRead, Option.getD_none]
        rw [if_neg (Nat.not_lt_zero _),
          if_neg (by omega : ¬ st.numChannels - 0 = 0)]
        simp only [Nat.sub_zero]
      | false =>
        exact ⟨fun _ => rfl, fun h => nomatch h⟩
    | packet p =>
      have hsc : scanFailure tid (Event.packet p :: tail) =
          if p.trackId = tid ∧ p.decodeOk = false then true
          else scanFailure tid tail := rfl
      have hds : decodesSome tid (Event.packet p :: tail) =
          if p.trackId = tid then true else decodesSome tid tail := rfl
      by_cases hpt : p.trackId = tid
      · cases hdc : p.decodeOk with
        | false =>
          have hscT : scanFailure tid (Event.packet p :: tail) = true := by
            rw [hsc, if_pos ⟨hpt, hdc⟩]
          refine ⟨fun _ => ?_, fun h => nomatch hscT.symm.trans h⟩
          simp only [runEvents]
          rw [if_neg (by simp [hpt]), if_pos (by simp [hdc])]
        | true =>
          have hscT : scanFailure tid (Event.packet p :: tail) =
              scanFailure tid tail := by
            rw [hsc, if_neg (by simp [hdc])]
          have hchp : 0 < p.channels := h2 p (by simp)
          have hpos0 : ∃ v, (match st.currentSample with
              | some c => some c
              | none => resyncPos tb sr p.ts) = some v := by
            cases hcs : st.currentSample with
            | some c => exact ⟨c, rfl⟩
            | none =>
              cases htb' : tb with
              | none => exact ⟨0, rfl⟩
              | some dd =>
                exact ⟨p.ts * sr / dd,
                  by simp [resyncPos, Nat.pos_iff_ne_zero.mp (htb dd htb')]⟩
          obtain ⟨v, hv⟩ := hpos0
          have hval : (if st.specSet then none
              else validateChannels none none p.channels) =
                (none : Option AudioReadError) := by
            cases hss : st.specSet with
            | true => simp [hss]
            | false => simp [hss, validateChannels]
          have hC' : 0 < (if st.specSet then st.numChannels else p.channels) := by
            cases hss : st.specSet with
            | true => simpa [hss] using h1 hss
            | false => simpa [hss] using hchp
          obtain ⟨acc', hpc⟩ := packetCollect_none_endF sr a
            (if st.specSet then st.numChannels else p.channels) hC' p.data v
            st.samples
          have hstep : runEvents sr tb tid a none none none
              (Event.packet p :: tail) st =
              runEvents sr tb tid a none none none tail
                ⟨true, (if st.specSet then st.numChannels else p.channels),
                 acc', some (v + p.data.length /
                   (if st.specSet then st.numChannels else p.channels))⟩ := by
            simp only [runEvents]
            rw [if_neg (by simp [hpt]), if_neg (by simp [hdc])]
            rw [processPacket_reduce sr tb a none none none p st v hv hval,
              hpc]
          rw [hstep]
          have hih := ih ⟨true,
              (if st.specSet then st.numChannels else p.channels), acc',
              some (v + p.data.length /
                (if st.specSet then st.numChannels else p.channels))⟩
            (fun _ => hC') (fun q hq => h2 q (by simp [hq]))
            (fun _ => Or.inl rfl)
          exact ⟨fun h => hih.1 (hscT ▸ h), fun h => hih.2 (hscT ▸ h)⟩
      · have hscT : scanFailure tid (Event.packet p :: tail) =
            scanFailure tid tail := by
          rw [hsc, if_neg (by simp [hpt])]
        have hdsT : decodesSome tid (Event.packet p :: tail) =
            decodesSome tid tail := by
          rw [hds, if_neg hpt]
        have hstep : runEvents sr tb tid a none none none
            (Event.packet p :: tail) st =
            runEvents sr tb tid a none none none tail st := by
          simp only [runEvents]
          rw [if_pos hpt]
        rw [hstep]
        have hih := ih st h1 (fun q hq => h2 q (by simp [hq]))
          (fun h => by
            rcases h3 (hscT.trans h) with hx | hx
            · exact Or.inl hx
            · exact Or.inr (hdsT ▸ hx))
        exact ⟨fun h => hih.1 (hscT ▸ h), fun h => hih.2 (hscT ▸ h)⟩

/-- Claim C10 (amended): with no channel filtering and no end bound,
`audio_read` returns an error from the packet-reading loop exactly when the
collaborator reports a failure other than clean end-of-stream — a
non-`UnexpectedEof` io error, another fatal `next_packet` error, or a failing
decode — which propagates as the (fatal) `EncodingError` with no retry; on
clean end-of-stream it returns `Ok` with whatever was accumulated, provided at
least one selected-track packet was decoded (a packetless clean end-of-stream
instead panics — claim C3's bug). -/
theorem c10_amended (sr : Nat) (tb : Option Nat) (tid : Nat)
    (evs : List Event) (s : Start) (hsr : 0 < sr)
    (htb : ∀ d, tb = some d → 0 < d)
    (hch : ∀ p, Event.packet p ∈ evs → 0 < p.channels)
    (hdec : scanFailure tid evs = false → decodesSome tid evs = true) :
    (scanFailure tid evs = true →
      audio_read ⟨sr, tb, tid, evs⟩ ⟨s, .End, none, none⟩ =
        .error .EncodingError) ∧
    (scanFailure tid evs = false →
      ∃ d, audio_read ⟨sr, tb, tid, evs⟩ ⟨s, .End, none, none⟩ = .ok d) := by
  unfold audio_read
  simp only [resolveStop]
  unfold audioReadBody
  rw [if_neg (by simp [Nat.pos_iff_ne_zero.mp hsr])]
  exact c10_run sr tb tid (resolveStart s sr) htb evs ⟨false, 0, [], none⟩
    (fun h => nomatch h) hch (fun h => Or.inr (hdec h))

/-- Witness for C10's amended statement at a concrete input: a stream
delivering one decodable mono packet and then ending cleanly reports no
failure, and `audio_read` returns `Ok`. -/
theorem c10_amended_witness :
    ∃ d, audio_read ⟨44100, none, 0, [.packet ⟨0, 0, 1, true, [3]⟩]⟩
      ⟨.Beginning, .End, none, none⟩ = .ok d :=
  (c10_amended 44100 none 0 [.packet ⟨0, 0, 1, true, [3]⟩] .Beginning
    (by decide) (fun d h => nomatch h)
    (by
      intro p hp
      simp only [List.mem_singleton] at hp
      cases hp
      decide)
    (fun _ => rfl)).2 rfl

/-- The fall-through result does not distinguish the explicit full channel
range `[0, C)` from absent channel bounds once the learned channel count is
`C`. -/
lemma finishRead_chan_congr (sr C : Nat) (st : RState)
    (h : st.numChannels = C) :
    finishRead sr (some 0) (some C) st = finishRead sr none none st := by
  simp only [finishRead, Option.getD_some, Option.getD_none, h]

/-- After the channel spec is learned as `C`, the packet loop with the
explicit full range `[0, C)` behaves exactly like the loop with no channel
bounds. -/
lemma runEvents_chan_congr (sr : Nat) (tb : Option Nat) (tid startF : Nat)
    (endF : Option Nat) (C : Nat) :
    ∀ evs (st : RState), st.specSet = true → st.numChannels = C →
      runEvents sr tb tid startF endF (some 0) (some C) evs st =
      runEvents sr tb tid startF endF none none evs st := by
  intro evs
  induction evs with
  | nil =>
    intro st h1 h2
    exact finishRead_chan_congr sr C st h2
  | cons ev tail ih =>
    intro st h1 h2
    cases ev with
    | resetRequired => exact ih st h1 h2
    | fatalError => rfl
    | ioError eof =>
      cases eof with
      | true => exact finishRead_chan_congr sr C st h2
      | false => rfl
    | packet p =>
      by_cases hpt : p.trackId ≠ tid
      · have hstep : ∀ fc lc : Option Nat,
            runEvents sr tb tid startF endF fc lc
              (Event.packet p :: tail) st =
            runEvents sr tb tid startF endF fc lc tail st := by
          intro fc lc
          simp only [runEvents]
          rw [if_pos hpt]
        rw [hstep, hstep]
        exact ih st h1 h2
      · cases hdc : p.decodeOk with
        | false =>
          have hstep : ∀ fc lc : Option Nat,
              runEvents sr tb tid startF endF fc lc
                (Event.packet p :: tail) st = .error .EncodingError := by
            intro fc lc
            simp only [runEvents]
            rw [if_neg hpt, if_pos (by simp [hdc])]
          rw [hstep, hstep]
        | true =>
          have hstep : ∀ fc lc : Option Nat,
              runEvents sr tb tid startF endF fc lc
                (Event.packet p :: tail) st =
              (match processPacket sr tb startF endF fc lc p st with
               | .inl o => o
               | .inr st' =>
                 runEvents sr tb tid startF endF fc lc tail st') := by
            intro fc lc
            simp only [runEvents]
            rw [if_neg hpt, if_neg (by simp [hdc])]
          rw [hstep, hstep]
          cases hm : (match st.currentSample with
              | some c => some c
              | none => resyncPos tb sr p.ts) with
          | none =>
            have hpp : ∀ fc lc : Option Nat,
                processPacket sr tb startF endF fc lc p st = .inl .panic := by
              intro fc lc
              unfold processPacket
              rw [hm]
            rw [hpp, hpp]
          | some v =>
            have hCif : (if st.specSet then st.numChannels else p.channels) =
                C := by simp [h1, h2]
            have hppA := processPacket_reduce sr tb startF endF (some 0)
              (some C) p st v hm (by simp [h1])
            have hppB := processPacket_reduce sr tb startF endF none none
              p st v hm (by simp [h1])
            rw [hCif] at hppA hppB
            have hpcEq : packetCollect sr startF endF (some 0) (some C) C
                p.data v st.samples =
              packetCollect sr startF endF none none C p.data v st.samples :=
              rfl
            rw [hpcEq] at hppA
            rw [hppA, hppB]
            cases hpc : packetCollect sr startF endF none none C p.data v
                st.samples with
            | done o => rfl
            | cont acc pos =>
              exact ih ⟨true, C, acc, some pos⟩ rfl rfl

/-- Before the first selected-track packet (and in the absence of a premature
clean end-of-stream), the loop treats the explicit full channel range and
absent channel bounds identically; at that first packet the explicit range
`[0, C)` passes validation and the two runs coincide from then on. -/
lemma runEvents_prefix_congr (sr : Nat) (tb : Option Nat) (tid startF : Nat)
    (endF : Option Nat) (C : Nat) (hC : 0 < C) (p : Packet)
    (htid : p.trackId = tid) (hch : p.channels = C) :
    ∀ (evs1 evs2 : List Event) (st : RState), st.specSet = false →
      (∀ q, Event.packet q ∈ evs1 → q.trackId ≠ tid) →
      Event.ioError true ∉ evs1 →
      runEvents sr tb tid startF endF (some 0) (some C)
        (evs1 ++ Event.packet p :: evs2) st =
      runEvents sr tb tid startF endF none none
        (evs1 ++ Event.packet p :: evs2) st := by
  intro evs1
  induction evs1 with
  | nil =>
    intro evs2 st hspec _ _
    have hpt : ¬ p.trackId ≠ tid := by simp [htid]
    simp only [List.nil_append]
    cases hdc : p.decodeOk with
    | false =>
      have hstep : ∀ fc lc : Option Nat,
          runEvents sr tb tid startF endF fc lc
            (Event.packet p :: evs2) st = .error .EncodingError := by
        intro fc lc
        simp only [runEvents]
        rw [if_neg hpt, if_pos (by simp [hdc])]
      rw [hstep, hstep]
    | true =>
      have hstep : ∀ fc lc : Option Nat,
          runEvents sr tb tid startF endF fc lc
            (Event.packet p :: evs2) st =
          (match processPacket sr tb startF endF fc lc p st with
           | .inl o => o
           | .inr st' =>
             runEvents sr tb tid startF endF fc lc evs2 st') := by
        intro fc lc
        simp only [runEvents]
        rw [if_neg hpt, if_neg (by simp [hdc])]
      rw [hstep, hstep]
      cases hm : (match st.currentSample with
          | some c => some c
          | none => resyncPos tb sr p.ts) with
      | none =>
        have hpp : ∀ fc lc : Option Nat,
            processPacket sr tb startF endF fc lc p st = .inl .panic := by
          intro fc lc
          unfold processPacket
          rw [hm]
        rw [hpp, hpp]
      | some v =>
        have hvalC : validateChannels (some 0) (some C) C = none := by
          simp only [validateChannels]
          rw [if_neg (by omega), if_neg (by omega), if_neg (by omega)]
        have hvalA : (if st.specSet then none
            else validateChannels (some 0) (some C) p.channels) =
              (none : Option AudioReadError) := by
          rw [hspec, hch]
          simpa using hvalC
        have hvalB : (if st.specSet then none
            else validateChannels none none p.channels) =
              (none : Option AudioReadError) := by
          rw [hspec]
          simp [validateChannels]
        have hCif : (if st.specSet then st.numChannels else p.channels) =
            C := by simp [hspec, hch]
        have hppA := processPacket_reduce sr tb startF endF (some 0) (some C)
          p st v hm hvalA
        have hppB := processPacket_reduce sr tb startF endF none none
          p st v hm hvalB
        rw [hCif] at hppA hppB
        have hpcEq : packetCollect sr startF endF (some 0) (some C) C
            p.data v st.samples =
          packetCollect sr startF endF none none C p.data v st.samples := rfl
        rw [hpcEq] at hppA
        rw [hppA, hppB]
        cases hpc : packetCollect sr startF endF none none C p.data v
            st.samples with
        | done o => rfl
        | cont acc pos =>
          exact runEvents_chan_congr sr tb tid startF endF C evs2
            ⟨true, C, acc, some pos⟩ rfl rfl
  | cons ev tail1 ih =>
    intro evs2 st hspec hpre hpre2
    cases ev with
    | resetRequired =>
      exact ih evs2 st hspec (fun q hq => hpre q (by simp [hq]))
        (fun hmem => hpre2 (by simp [hmem]))
    | fatalError => rfl
    | ioError eof =>
      cases eof with
      | true => exact absurd (by simp) hpre2
      | false => rfl
    | packet q =>
      have hq : q.trackId ≠ tid := hpre q (by simp)
      have hstep : ∀ fc lc : Option Nat,
          runEvents sr tb tid startF endF fc lc
            ((Event.packet q :: tail1) ++ Event.packet p :: evs2) st =
          runEvents sr tb tid startF endF fc lc
            (tail1 ++ Event.packet p :: evs2) st := by
        intro fc lc
        simp only [List.cons_append, runEvents]
        rw [if_pos hq]
        rfl
      rw [hstep, hstep]
      exact ih evs2 st hspec (fun r hr => hpre r (by simp [hr]))
        (fun hmem => hpre2 (by simp [hmem]))

/-- Claim C9 (confirmed): for a stream whose channel count — learned from the
first selected-track packet — is `C`, explicitly requesting the full channel
range `[0, C)` produces a result identical to requesting no channel filtering
at all (both bounds absent), for every start/stop configuration: identical
samples, `num_channels`, `num_frames` and `sample_rate` (or the identical
error/panic).  The stream may contain non-selected-track packets, resets and
errors before that first packet, but no premature clean end-of-stream. -/
theorem c9_full_range_equiv (sr : Nat) (tb : Option Nat) (tid : Nat)
    (evs1 evs2 : List Event) (p : Packet) (s : Start) (t : Stop) (C : Nat)
    (hC : 0 < C)
    (hpre : ∀ q, Event.packet q ∈ evs1 → q.trackId ≠ tid)
    (hpre2 : Event.ioError true ∉ evs1)
    (htid : p.trackId = tid) (hch : p.channels = C) :
    audio_read ⟨sr, tb, tid, evs1 ++ .packet p :: evs2⟩
        ⟨s, t, some 0, some C⟩ =
      audio_read ⟨sr, tb, tid, evs1 ++ .packet p :: evs2⟩
        ⟨s, t, none, none⟩ := by
  have hbody : ∀ endF,
      audioReadBody ⟨sr, tb, tid, evs1 ++ .packet p :: evs2⟩
        ⟨s, t, some 0, some C⟩ (resolveStart s sr) endF =
      audioReadBody ⟨sr, tb, tid, evs1 ++ .packet p :: evs2⟩
        ⟨s, t, none, none⟩ (resolveStart s sr) endF := by
    intro endF
    unfold audioReadBody
    split
    · rfl
    · exact runEvents_prefix_congr sr tb tid (resolveStart s sr) endF C hC p
        htid hch evs1 evs2 ⟨false, 0, [], none⟩ rfl hpre hpre2
  unfold audio_read
  cases hstop : resolveStop t sr with
  | none =>
    simp only [hstop]
    exact hbody none
  | some e =>
    simp only [hstop]
    split
    · rfl
    · exact hbody (some e)

/-- Witness for C9 at a concrete input: a stereo stream of one packet with two
frames read over the explicit full range `[0, 2)` equals the unfiltered
read. -/
theorem c9_full_range_equiv_witness :
    audio_read ⟨48000, none, 0, [] ++ .packet ⟨0, 0, 2, true, [1, 2, 3, 4]⟩ :: []⟩
        ⟨.Beginning, .End, some 0, some 2⟩ =
      audio_read ⟨48000, none, 0, [] ++ .packet ⟨0, 0, 2, true, [1, 2, 3, 4]⟩ :: []⟩
        ⟨.Beginning, .End, none, none⟩ :=
  c9_full_range_equiv 48000 none 0 [] [] ⟨0, 0, 2, true, [1, 2, 3, 4]⟩
    .Beginning .End 2 (by decide) (fun q hq => absurd hq (by simp))
    (by simp) rfl rfl

end AudioIO
